import Mathlib

/-!
Verification of the partitioned, concurrent key-range scanner and the
license-consolidation consumer of this repository.  The Python sources
embedded here are `scan-for-account-attributes.py` (key-space partitioner,
backoff/retry page fetch, window walker, parallel scan coordinator) and
`consolidate_duplicated_ea_licenses.py` (license fetch walker, grouping,
primary selection, migrate/delete pass, batch loop).
-/

/-- Keyspace bounds from both scripts: MIN_KEY = 0. -/
def MIN_KEY : Int := 0

/-- Keyspace bounds from both scripts: MAX_KEY = 2 ^ 63 - 1. -/
def MAX_KEY : Int := 2 ^ 63 - 1

/-- Embedding of `generate_key_ranges` (identical in both scripts), with the
module constants MIN_KEY and MAX_KEY made explicit parameters.  Python
integer division `//` is floor division, i.e. `Int.fdiv`.  For partition `i`
below the last one, `end = min_key + (i + 1) * partition_size - 1`; the last
partition ends at `max_key`. -/
def generate_key_ranges (min_key max_key : Int) (partitions : Nat) : List (Int × Int) :=
  let key_range := max_key - min_key
  let partition_size := Int.fdiv key_range (partitions : Int)
  (List.range partitions).map (fun (i : Nat) =>
    (min_key + (i : Int) * partition_size,
     if (i : Int) < (partitions : Int) - 1 then
       min_key + ((i : Int) + 1) * partition_size - 1
     else max_key))

/-- Model of the paginated scan endpoint (spec section 6): given the full
dataset of record keys (in key order), a request with bounds
`(startKey, startInclusive, endKey, endInclusive)` and a page size `count`
returns the first `count` keys inside the requested interval. -/
def fetchPage (dataset : List Int) (startKey : Int) (startInclusive : Bool)
    (endKey : Int) (endInclusive : Bool) (count : Nat) : List Int :=
  (dataset.filter (fun k =>
    (if startInclusive then decide (startKey ≤ k) else decide (startKey < k)) &&
    (if endInclusive then decide (k ≤ endKey) else decide (k < endKey)))).take count

/-- Outcome of one HTTP request in the model: a successful JSON page, an
HTTP error with its status code (what `raise_for_status` raises), or a
transport-level error (`requests.exceptions.RequestException`). -/
inductive FetchOutcome
  | success (page : List Int)
  | httpError (status : Nat)
  | transportError
deriving DecidableEq, Repr

/-- Result of `scan_page`: the page together with the number of attempts
made, or the fatal error that propagated. -/
inductive ScanPageResult
  | ok (page : List Int) (attempts : Nat)
  | fatalClient (status : Nat) (attempts : Nat)
  | retriesExhausted (attempts : Nat)
deriving DecidableEq, Repr

/-- Loop body of `scan_page` with its `Backoff` object.  `responses a` is the
outcome of attempt number `a` (0-indexed) of the identical request.  The
Backoff counter `tries` equals the number of failed attempts so far; after a
retryable failure of attempt `a` the counter becomes `a + 1` and
`Backoff.backoff` raises once `tries > max_tries`.  The fuel argument is
`maxTries + 1 - a` at every call, so the fuel-zero branch is unreachable
from `scan_page`. -/
def scanPageGo (responses : Nat → FetchOutcome) (maxTries : Nat) : Nat → Nat → ScanPageResult
  | 0, a => ScanPageResult.retriesExhausted a
  | fuel + 1, a =>
    match responses a with
    | FetchOutcome.success page => ScanPageResult.ok page (a + 1)
    | FetchOutcome.httpError s =>
      if 400 ≤ s ∧ s < 500 then ScanPageResult.fatalClient s (a + 1)
      else if a + 1 > maxTries then ScanPageResult.retriesExhausted (a + 1)
      else scanPageGo responses maxTries fuel (a + 1)
    | FetchOutcome.transportError =>
      if a + 1 > maxTries then ScanPageResult.retriesExhausted (a + 1)
      else scanPageGo responses maxTries fuel (a + 1)

/-- Embedding of `scan_page` from `scan-for-account-attributes.py`: retry the
identical request, never retrying a 4xx HTTP error, retrying 5xx and
transport errors until the Backoff object (with `max_tries = maxTries`)
raises.  The delays and jitter are timing-only and not modelled. -/
def scan_page (responses : Nat → FetchOutcome) (maxTries : Nat) : ScanPageResult :=
  scanPageGo responses maxTries (maxTries + 1) 0

/-- States that the outcome of an attempt is one the `scan_page` loop
retries: an HTTP error outside the 4xx class, or a transport error. -/
def RetryableOutcome : FetchOutcome → Prop
  | FetchOutcome.success _ => False
  | FetchOutcome.httpError s => ¬(400 ≤ s ∧ s < 500)
  | FetchOutcome.transportError => True

/-- Loop of `scan_key_range` from `scan-for-account-attributes.py`.  The
walker asks the page server `pages` (call index, startKey, startInclusive,
endKey, endInclusive, count) for a page; here every page fetch succeeds
(`scan_page` error propagation is modelled separately by `scanPageGo`).
Faithful to the source: `end_inclusive` is always `False` with
`end_key = endKey` fixed; an empty batch breaks the loop; otherwise the
batch is appended and the cursor becomes the key of the last record with
`start_inclusive = False`.  There is no short-page check.  Returns the
accumulated records and the number of fetch calls made.  The fuel argument
bounds the number of iterations of the `while True` loop. -/
def scanKeyRangeGo (pages : Nat → Int → Bool → Int → Bool → Nat → List Int)
    (count : Nat) (endKey : Int) :
    Nat → Int → Bool → List Int → Nat → List Int × Nat
  | 0, _, _, acc, calls => (acc, calls)
  | fuel + 1, start, startIncl, acc, calls =>
    match h : pages calls start startIncl endKey false count with
    | [] => (acc, calls + 1)
    | b :: bs =>
      scanKeyRangeGo pages count endKey fuel ((b :: bs).getLast (by simp)) false
        (acc ++ b :: bs) (calls + 1)

/-- Embedding of `scan_key_range`: start at `(start_key, inclusive)` and walk
the window `[start_key, end_key]` to exhaustion. -/
def scan_key_range (pages : Nat → Int → Bool → Int → Bool → Nat → List Int)
    (count : Nat) (start_key end_key : Int) (fuel : Nat) : List Int × Nat :=
  scanKeyRangeGo pages count end_key fuel start_key true [] 0

/-- Page server backed by a concrete dataset: every request succeeds and is
answered by `fetchPage` (the call index is ignored, the server is
stateless). -/
def datasetPages (dataset : List Int) : Nat → Int → Bool → Int → Bool → Nat → List Int :=
  fun _ s si e ei c => fetchPage dataset s si e ei c

/-- Fatal error leaving the license fetch walker: an HTTP error status with
the number of requests made, a transport error, or fuel exhaustion (a
modelling artifact for the unbounded `while True`). -/
inductive FetchErr
  | http (status : Nat) (attempts : Nat)
  | transport (attempts : Nat)
  | outOfFuel
deriving DecidableEq, Repr

/-- Loop of `fetch_licenses_by_role_and_key_range` from
`consolidate_duplicated_ea_licenses.py`.  `responses` maps (call index,
startKey, startInclusive, endKey, endInclusive, count) to an outcome.
Faithful to the source: every request carries `startInclusive = True` and
`endInclusive = False` with `count = 100` (all literals in the params dict);
`resp.raise_for_status()` propagates every HTTP error with no retry; an
empty page breaks; a page shorter than 100 is appended and breaks; otherwise
`start` becomes the key of the last record (still inclusive on the next
request).  Returns the accumulated records and the number of requests. -/
def fetchLicensesGo (responses : Nat → Int → Bool → Int → Bool → Nat → FetchOutcome)
    (endKey : Int) :
    Nat → Int → List Int → Nat → Except FetchErr (List Int × Nat)
  | 0, _, _, _ => Except.error FetchErr.outOfFuel
  | fuel + 1, start, acc, calls =>
    match responses calls start true endKey false 100 with
    | FetchOutcome.success [] => Except.ok (acc, calls + 1)
    | FetchOutcome.success (l :: ls) =>
      if (l :: ls).length < 100 then Except.ok (acc ++ l :: ls, calls + 1)
      else
        fetchLicensesGo responses endKey fuel ((l :: ls).getLast (by simp))
          (acc ++ l :: ls) (calls + 1)
    | FetchOutcome.httpError s => Except.error (FetchErr.http s (calls + 1))
    | FetchOutcome.transportError => Except.error (FetchErr.transport (calls + 1))

/-- Embedding of `fetch_licenses_by_role_and_key_range` (the role filter and
auth headers are opaque and omitted). -/
def fetch_licenses_by_role_and_key_range
    (responses : Nat → Int → Bool → Int → Bool → Nat → FetchOutcome)
    (start_key end_key : Int) (fuel : Nat) : Except FetchErr (List Int × Nat) :=
  fetchLicensesGo responses end_key fuel start_key [] 0

/-- License server backed by a concrete dataset: every request succeeds. -/
def licensesServer (dataset : List Int) : Nat → Int → Bool → Int → Bool → Nat → FetchOutcome :=
  fun _ s si e ei c => FetchOutcome.success (fetchPage dataset s si e ei c)

/-- Model of `asyncio.gather` without `return_exceptions`: if every task
succeeds, the results are returned in task order; if a task raises, the
first raised error propagates (deterministically, in task order). -/
def asyncioGather {ε α : Type} : List (Except ε α) → Except ε (List α)
  | [] => Except.ok []
  | Except.error e :: _ => Except.error e
  | Except.ok a :: rest =>
    match asyncioGather rest with
    | Except.error e => Except.error e
    | Except.ok as => Except.ok (a :: as)

/-- Embedding of `parallel_scan` (and of `parallel_fetch_licenses`, which has
the same shape): build the key ranges, run one window walk per range, gather,
and flatten.  `walk` abstracts one window walk returning either the records
of the partition or a fatal error. -/
def parallel_scan {ε : Type} (walk : Int → Int → Except ε (List Int))
    (min_key max_key : Int) (partitions : Nat) : Except ε (List Int) :=
  match asyncioGather ((generate_key_ranges min_key max_key partitions).map
      (fun r => walk r.1 r.2)) with
  | Except.error e => Except.error e
  | Except.ok results => Except.ok results.flatten

/-- A license record as projected by the consolidation script
(`attributeNames = key,userKeys,accountKey,enabled`).  An absent `enabled`
attribute is `none`. -/
structure License where
  key : Int
  userKeys : List Int
  accountKey : Int
  enabled : Option Bool
deriving DecidableEq, Repr

instance : Inhabited License := ⟨⟨0, [], 0, none⟩⟩

/-- Python `max(ea_licenses, key=lambda l: len(l.get("userKeys", [])))`: the
first record with the largest `userKeys` list wins (Python `max` replaces the
running maximum only on a strictly larger key). -/
def pickPrimary (ea_licenses : List License) : License :=
  match ea_licenses with
  | [] => default
  | h :: t =>
    t.foldl (fun best l => if best.userKeys.length < l.userKeys.length then l else best) h

/-- One mutation issued by the consolidation pass: `move user_id` to the
target license, or `delete` a license by key. -/
inductive Mutation
  | move (userId : Int) (targetLicenseKey : Int)
  | delete (licenseKey : Int)
deriving DecidableEq, Repr

/-- Body of `process_account_licenses` for one account group, as the list of
mutations issued (success path of the `try` block).  Faithful to the source:
groups of at most one license are skipped; licenses whose key equals the
primary key are skipped; for each member of a non-primary license that is
not among the primary users, the script moves the member and then
immediately calls `delete_license` on the non-primary license — the delete
sits inside the per-user loop. -/
def processAccountGroup (ea_licenses : List License) : List Mutation :=
  if ea_licenses.length ≤ 1 then []
  else
    let primary := pickPrimary ea_licenses
    let primaryKey := primary.key
    let primaryUsers := primary.userKeys
    (ea_licenses.filter (fun l => l.key ≠ primaryKey)).flatMap (fun lic =>
      (lic.userKeys.filter (fun u => ¬ primaryUsers.contains u)).flatMap (fun u =>
        [Mutation.move u primaryKey, Mutation.delete lic.key]))

/-- Embedding of `process_account_licenses`: iterate the account groups in
dict order (modelled as an association list). -/
def process_account_licenses (account_licenses : List (Int × List License)) : List Mutation :=
  account_licenses.flatMap (fun g => processAccountGroup g.2)

/-- Filter applied by `main` before grouping:
`if lic.get("enabled", True)` keeps a license whose `enabled` attribute is
true or absent. -/
def filterEnabled (licenses : List License) : List License :=
  licenses.filter (fun l => l.enabled.getD true)

/-- Grouping by `accountKey` with a `defaultdict(list)`: account keys appear
in order of first occurrence, each group keeps record order. -/
def groupByAccount (licenses : List License) : List (Int × List License) :=
  ((licenses.map (fun l => l.accountKey)).eraseDups).map
    (fun k => (k, licenses.filter (fun l => l.accountKey = k)))

/-- Constant `BATCH_SIZE = 50` from `consolidate_duplicated_ea_licenses.py`. -/
def BATCH_SIZE : Nat := 50

/-- Constant `SLEEP_BETWEEN_BATCHES = 1` from
`consolidate_duplicated_ea_licenses.py`.  It is defined by the script but
never used. -/
def SLEEP_BETWEEN_BATCHES : Nat := 1

/-- One observable event of the batch loop of `main`: processing one batch of
account keys, or sleeping for a number of seconds. -/
inductive BatchEvent
  | processBatch (keys : List Int)
  | sleepSeconds (seconds : Nat)
deriving DecidableEq, Repr

/-- Tests whether a batch event is a sleep. -/
def BatchEvent.isSleep : BatchEvent → Bool
  | BatchEvent.sleepSeconds _ => true
  | _ => false

/-- Python `range(0, stop, step)` for positive `step`. -/
def pythonRangeStep (stop step : Nat) : List Nat :=
  (List.range ((stop + step - 1) / step)).map (fun j => j * step)

/-- Trace of the batch loop of `main`:
`for i in range(0, len(account_keys), BATCH_SIZE)` processes the slice
`account_keys[i : i + BATCH_SIZE]`.  The loop body contains no sleep call
(`SLEEP_BETWEEN_BATCHES` is never referenced), so the trace consists of
`processBatch` events only. -/
def mainBatchTrace (account_keys : List Int) : List BatchEvent :=
  (pythonRangeStep account_keys.length BATCH_SIZE).map
    (fun i => BatchEvent.processBatch ((account_keys.drop i).take BATCH_SIZE))

/-! ## Helper lemmas about the partitioner -/

theorem generate_key_ranges_length (m M : Int) (n : Nat) :
    (generate_key_ranges m M n).length = n := by
  simp only [generate_key_ranges, List.length_map, List.length_range]

theorem generate_key_ranges_get (m M : Int) (n i : Nat)
    (h : i < (generate_key_ranges m M n).length) :
    (generate_key_ranges m M n).get ⟨i, h⟩ =
      (m + (i : Int) * Int.fdiv (M - m) (n : Int),
       if (i : Int) < (n : Int) - 1 then
         m + ((i : Int) + 1) * Int.fdiv (M - m) (n : Int) - 1
       else M) := by
  simp only [generate_key_ranges, List.get_eq_getElem, List.getElem_map, List.getElem_range]

/-! ## Claim theorems (concrete bug evaluations) -/

/-- C1: refuted by the code.  The walker passes `endKey = window.end` with
`endInclusive = false`, which is NOT exclusive-equivalent to
`end_key = window.end + 1`: over the window `[0, 249]` a dataset record with
key `249` lies inside the window yet the walk yields nothing (one fetch is
made and the page is empty because the request excludes key `249`). -/
theorem scan_key_range_skips_window_end :
    (249 : Int) ∈ ([249] : List Int) ∧ (0 : Int) ≤ 249 ∧ (249 : Int) ≤ 249 ∧
    scan_key_range (datasetPages [249]) 100 0 249 10 = ([], 1) := by
  exact ⟨by decide, by decide, by decide, by decide⟩

/-- C2: refuted by the code of `fetch_licenses_by_role_and_key_range`.  The
cursor key advances to the key of the last record of a full page but
`startInclusive` stays `True`, so that record is fetched and yielded again:
on a window `[0, 1000)` holding the 101 keys `0..100`, the walk makes two
requests and yields key `99` twice. -/
theorem fetch_licenses_inclusive_cursor_duplicates :
    fetch_licenses_by_role_and_key_range
        (licensesServer ((List.range 101).map (fun i => (i : Int)))) 0 1000 10 =
      Except.ok ((List.range 100).map (fun i => (i : Int)) ++ [99, 100], 2) ∧
    (((List.range 100).map (fun i => (i : Int)) ++ [99, 100]).count 99 = 2) := by
  exact ⟨by rfl, by decide⟩

/-- C3: refuted by the code.  `delete_license` sits inside the per-user
migration loop of `process_account_licenses`: a non-primary license with two
non-overlapping members is deleted twice (and already before its second
member is migrated), while a non-primary license whose members all overlap
the primary is never deleted.  Group: primary key 1 with five users,
license 2 with users 6 and 7, license 3 with user 1 only. -/
theorem process_account_licenses_delete_per_user :
    process_account_licenses
        [(42, [⟨1, [1, 2, 3, 4, 5], 42, none⟩, ⟨2, [6, 7], 42, none⟩,
               ⟨3, [1], 42, none⟩])] =
      [Mutation.move 6 1, Mutation.delete 2, Mutation.move 7 1, Mutation.delete 2] ∧
    (process_account_licenses
        [(42, [⟨1, [1, 2, 3, 4, 5], 42, none⟩, ⟨2, [6, 7], 42, none⟩,
               ⟨3, [1], 42, none⟩])]).count (Mutation.delete 2) = 2 ∧
    Mutation.delete 3 ∉ process_account_licenses
        [(42, [⟨1, [1, 2, 3, 4, 5], 42, none⟩, ⟨2, [6, 7], 42, none⟩,
               ⟨3, [1], 42, none⟩])] := by
  exact ⟨by decide, by decide, by decide⟩

/-- C4: the partitions claimed by the spec for keyspace `[0, 999]` with
`n = 4` are not the ones the code returns. -/
theorem generate_key_ranges_0_999_4_counterexample :
    generate_key_ranges 0 999 4 ≠ [(0, 249), (250, 499), (500, 749), (750, 999)] := by
  decide

/-- C4 (amended): for keyspace `[0, 999]` and `n = 4` the code returns
`[(0, 248), (249, 497), (498, 746), (747, 999)]`, consistent with
`size = (max_key - min_key) // n = 999 // 4 = 249` and the remainder
absorbed by the last partition. -/
theorem generate_key_ranges_0_999_4 :
    generate_key_ranges 0 999 4 = [(0, 248), (249, 497), (498, 746), (747, 999)] ∧
    Int.fdiv (999 - 0) 4 = 249 := by
  exact ⟨by decide, by decide⟩

/-- C9: refuted by the code.  The batch loop of `main` processes the account
groups in slices of `BATCH_SIZE = 50` but never sleeps between batches
(`SLEEP_BETWEEN_BATCHES` is defined and unused): with 51 account keys the
trace is two `processBatch` events and contains no sleep event. -/
theorem main_batch_trace_has_no_sleep :
    mainBatchTrace ((List.range 51).map (fun i => (i : Int))) =
      [BatchEvent.processBatch ((List.range 50).map (fun i => (i : Int))),
       BatchEvent.processBatch [50]] ∧
    (mainBatchTrace ((List.range 51).map (fun i => (i : Int)))).filter
        BatchEvent.isSleep = [] := by
  exact ⟨by decide, by decide⟩

theorem generate_key_ranges_get_fst (m M : Int) (n i : Nat)
    (h : i < (generate_key_ranges m M n).length) :
    ((generate_key_ranges m M n).get ⟨i, h⟩).1 =
      m + (i : Int) * Int.fdiv (M - m) (n : Int) := by
  rw [generate_key_ranges_get]

theorem generate_key_ranges_get_snd (m M : Int) (n i : Nat)
    (h : i < (generate_key_ranges m M n).length) :
    ((generate_key_ranges m M n).get ⟨i, h⟩).2 =
      (if (i : Int) < (n : Int) - 1 then
        m + ((i : Int) + 1) * Int.fdiv (M - m) (n : Int) - 1
      else M) := by
  rw [generate_key_ranges_get]

/-- C7: confirmed.  For every `(min_key, max_key, n)` with `n ≥ 1` and
`min_key ≤ max_key`, the partitioner returns `n` partitions whose first
start is `min_key` and last end is `max_key`, which are contiguous (each
end plus one is the next start), pairwise disjoint and ascending (each end
is below every later start), and whose union is exactly the interval
`[min_key, max_key]`. -/
theorem generate_key_ranges_partition_cover (m M : Int) (n : Nat)
    (hn : 1 ≤ n) (hmM : m ≤ M) :
    (generate_key_ranges m M n).length = n ∧
    (∀ h0 : 0 < (generate_key_ranges m M n).length,
      ((generate_key_ranges m M n).get ⟨0, h0⟩).1 = m) ∧
    (∀ hl : n - 1 < (generate_key_ranges m M n).length,
      ((generate_key_ranges m M n).get ⟨n - 1, hl⟩).2 = M) ∧
    (∀ i, ∀ hi : i < (generate_key_ranges m M n).length,
      ∀ hi1 : i + 1 < (generate_key_ranges m M n).length,
      ((generate_key_ranges m M n).get ⟨i, hi⟩).2 + 1 =
        ((generate_key_ranges m M n).get ⟨i + 1, hi1⟩).1) ∧
    (∀ i j, ∀ hi : i < (generate_key_ranges m M n).length,
      ∀ hj : j < (generate_key_ranges m M n).length, i < j →
      ((generate_key_ranges m M n).get ⟨i, hi⟩).2 <
        ((generate_key_ranges m M n).get ⟨j, hj⟩).1) ∧
    (∀ k : Int, (m ≤ k ∧ k ≤ M) ↔
      ∃ i, ∃ hi : i < (generate_key_ranges m M n).length,
        ((generate_key_ranges m M n).get ⟨i, hi⟩).1 ≤ k ∧
        k ≤ ((generate_key_ranges m M n).get ⟨i, hi⟩).2) := by
  have hlen := generate_key_ranges_length m M n
  have hn0 : (0 : Int) < (n : Int) := by exact_mod_cast Nat.lt_of_lt_of_le Nat.zero_lt_one hn
  have hsdef : Int.fdiv (M - m) (n : Int) = (M - m) / (n : Int) :=
    Int.fdiv_eq_ediv _ (le_of_lt hn0)
  have hs0 : 0 ≤ Int.fdiv (M - m) (n : Int) := by
    rw [hsdef]; exact Int.ediv_nonneg (by omega) (le_of_lt hn0)
  have hmod := Int.ediv_add_emod (M - m) (n : Int)
  have hmodnn : 0 ≤ (M - m) % (n : Int) := Int.emod_nonneg _ (by omega)
  have hns : (n : Int) * Int.fdiv (M - m) (n : Int) ≤ M - m := by
    rw [hsdef]; linarith
  refine ⟨hlen, ?_, ?_, ?_, ?_, ?_⟩
  · intro h0
    rw [generate_key_ranges_get_fst]
    simp
  · intro hl
    rw [generate_key_ranges_get_snd]
    rw [if_neg (by omega : ¬ (((n - 1 : Nat) : Int) < (n : Int) - 1))]
  · intro i hi hi1
    rw [generate_key_ranges_get_snd, generate_key_ranges_get_fst]
    have hin : i + 1 < n := by rw [hlen] at hi1; exact hi1
    rw [if_pos (by omega : ((i : Nat) : Int) < (n : Int) - 1)]
    push_cast
    ring
  · intro i j hi hj hij
    rw [generate_key_ranges_get_snd, generate_key_ranges_get_fst]
    have hjn : j < n := by rw [hlen] at hj; exact hj
    rw [if_pos (by omega : ((i : Nat) : Int) < (n : Int) - 1)]
    have hmul : ((i : Int) + 1) * Int.fdiv (M - m) (n : Int) ≤
        (j : Int) * Int.fdiv (M - m) (n : Int) :=
      mul_le_mul_of_nonneg_right (by omega) hs0
    linarith
  · intro k
    constructor
    · rintro ⟨hmk, hkM⟩
      by_cases hz : Int.fdiv (M - m) (n : Int) = 0
      · have hli : n - 1 < (generate_key_ranges m M n).length := by rw [hlen]; omega
        refine ⟨n - 1, hli, ?_, ?_⟩
        · rw [generate_key_ranges_get_fst, hz]
          simpa using hmk
        · rw [generate_key_ranges_get_snd]
          rw [if_neg (by omega : ¬ (((n - 1 : Nat) : Int) < (n : Int) - 1))]
          exact hkM
      · have hspos : 0 < Int.fdiv (M - m) (n : Int) := lt_of_le_of_ne hs0 (Ne.symm hz)
        have hq0 : 0 ≤ (k - m) / Int.fdiv (M - m) (n : Int) :=
          Int.ediv_nonneg (by omega) (le_of_lt hspos)
        have hqm := Int.ediv_add_emod (k - m) (Int.fdiv (M - m) (n : Int))
        have hr0 : 0 ≤ (k - m) % Int.fdiv (M - m) (n : Int) :=
          Int.emod_nonneg _ (ne_of_gt hspos)
        have hr1 : (k - m) % Int.fdiv (M - m) (n : Int) < Int.fdiv (M - m) (n : Int) :=
          Int.emod_lt_of_pos _ hspos
        have hql : Int.fdiv (M - m) (n : Int) * ((k - m) / Int.fdiv (M - m) (n : Int)) ≤
            k - m := by linarith
        have hqu : k - m < Int.fdiv (M - m) (n : Int) *
            ((k - m) / Int.fdiv (M - m) (n : Int)) + Int.fdiv (M - m) (n : Int) := by
          linarith
        have hcomm : ((k - m) / Int.fdiv (M - m) (n : Int)) * Int.fdiv (M - m) (n : Int) =
            Int.fdiv (M - m) (n : Int) * ((k - m) / Int.fdiv (M - m) (n : Int)) :=
          mul_comm _ _
        by_cases hqn : ((k - m) / Int.fdiv (M - m) (n : Int)).toNat < n - 1
        · have hli : ((k - m) / Int.fdiv (M - m) (n : Int)).toNat <
              (generate_key_ranges m M n).length := by rw [hlen]; omega
          have hcast : ((((k - m) / Int.fdiv (M - m) (n : Int)).toNat : Nat) : Int) =
              (k - m) / Int.fdiv (M - m) (n : Int) := Int.toNat_of_nonneg hq0
          refine ⟨((k - m) / Int.fdiv (M - m) (n : Int)).toNat, hli, ?_, ?_⟩
          · rw [generate_key_ranges_get_fst, hcast]
            linarith
          · rw [generate_key_ranges_get_snd]
            rw [if_pos (by omega : ((((k - m) / Int.fdiv (M - m) (n : Int)).toNat : Nat) : Int) <
              (n : Int) - 1)]
            rw [hcast]
            have hexp : ((k - m) / Int.fdiv (M - m) (n : Int) + 1) *
                Int.fdiv (M - m) (n : Int) =
                Int.fdiv (M - m) (n : Int) * ((k - m) / Int.fdiv (M - m) (n : Int)) +
                  Int.fdiv (M - m) (n : Int) := by ring
            linarith
        · have hli : n - 1 < (generate_key_ranges m M n).length := by rw [hlen]; omega
          have hge : ((n - 1 : Nat) : Int) ≤ (k - m) / Int.fdiv (M - m) (n : Int) := by
            omega
          refine ⟨n - 1, hli, ?_, ?_⟩
          · rw [generate_key_ranges_get_fst]
            have hmul : ((n - 1 : Nat) : Int) * Int.fdiv (M - m) (n : Int) ≤
                ((k - m) / Int.fdiv (M - m) (n : Int)) * Int.fdiv (M - m) (n : Int) :=
              mul_le_mul_of_nonneg_right hge hs0
            linarith
          · rw [generate_key_ranges_get_snd]
            rw [if_neg (by omega : ¬ (((n - 1 : Nat) : Int) < (n : Int) - 1))]
            exact hkM
    · rintro ⟨i, hi, hk1, hk2⟩
      rw [generate_key_ranges_get_fst] at hk1
      rw [generate_key_ranges_get_snd] at hk2
      have hin : i < n := by rw [hlen] at hi; exact hi
      have hi0 : (0 : Int) ≤ (i : Int) := by positivity
      have hmul0 : (0 : Int) ≤ (i : Int) * Int.fdiv (M - m) (n : Int) :=
        mul_nonneg hi0 hs0
      constructor
      · linarith
      · by_cases hc : ((i : Nat) : Int) < (n : Int) - 1
        · rw [if_pos hc] at hk2
          have hle : ((i : Int) + 1) * Int.fdiv (M - m) (n : Int) ≤
              ((n : Int) - 1) * Int.fdiv (M - m) (n : Int) :=
            mul_le_mul_of_nonneg_right (by omega) hs0
          have hexp : ((n : Int) - 1) * Int.fdiv (M - m) (n : Int) =
              (n : Int) * Int.fdiv (M - m) (n : Int) - Int.fdiv (M - m) (n : Int) := by
            ring
          linarith
        · rw [if_neg hc] at hk2
          exact hk2

/-- C7 witness: the theorem applied to the keyspace `[0, 999]` with four
partitions. -/
theorem generate_key_ranges_partition_cover_witness :
    (1 ≤ 4 ∧ (0 : Int) ≤ 999) ∧ (generate_key_ranges 0 999 4).length = 4 :=
  ⟨⟨by decide, by decide⟩,
   (generate_key_ranges_partition_cover 0 999 4 (by decide) (by decide)).1⟩

/-! ## Gather lemmas and the parallel scan coordinator -/

theorem asyncioGather_ok {ε α : Type} (vals : List α) :
    asyncioGather (vals.map (Except.ok : α → Except ε α)) = Except.ok vals := by
  induction vals with
  | nil => rfl
  | cons v vs ih => simp [asyncioGather, ih]

theorem asyncioGather_error {ε α : Type} (pre : List α) (e : ε)
    (post : List (Except ε α)) :
    asyncioGather (pre.map (Except.ok : α → Except ε α) ++ Except.error e :: post) =
      Except.error e := by
  induction pre with
  | nil => rfl
  | cons v vs ih => simp [asyncioGather, ih]

/-- C8: confirmed.  If the window walk of some partition fails with a fatal
error while every earlier partition succeeds, `parallel_scan` propagates
that first fatal error and returns no records; if every walk succeeds, the
result is the concatenation of the record lists of all partitions in
partition order, preserving within-partition order. -/
theorem parallel_scan_fail_fast_and_concat {ε : Type}
    (walk : Int → Int → Except ε (List Int)) (m M : Int) (n : Nat) :
    (∀ (pre : List (List Int)) (e : ε) (post : List (Except ε (List Int))),
      (generate_key_ranges m M n).map (fun r => walk r.1 r.2) =
        pre.map Except.ok ++ Except.error e :: post →
      parallel_scan walk m M n = Except.error e) ∧
    (∀ vals : List (List Int),
      (generate_key_ranges m M n).map (fun r => walk r.1 r.2) = vals.map Except.ok →
      parallel_scan walk m M n = Except.ok vals.flatten) := by
  constructor
  · intro pre e post h
    simp [parallel_scan, h, asyncioGather_error]
  · intro vals h
    simp [parallel_scan, h, asyncioGather_ok]

/-- C8 witness: over the keyspace `[0, 999]` with four partitions, a walk
that fails on the partition starting at 249 fails the whole scan with that
error, and all-successful walks concatenate in partition order. -/
theorem parallel_scan_fail_fast_witness :
    parallel_scan (fun s _ => if s = 249 then Except.error (5 : Nat) else Except.ok [s])
        0 999 4 = Except.error 5 ∧
    parallel_scan (fun s e => (Except.ok [s, e] : Except Nat (List Int))) 0 999 4 =
      Except.ok [0, 248, 249, 497, 498, 746, 747, 999] := by
  constructor
  · exact (parallel_scan_fail_fast_and_concat
      (fun s _ => if s = 249 then Except.error (5 : Nat) else Except.ok [s]) 0 999 4).1
      [[0]] 5 [Except.ok [498], Except.ok [747]] (by rfl)
  · exact (parallel_scan_fail_fast_and_concat
      (fun s e => (Except.ok [s, e] : Except Nat (List Int))) 0 999 4).2
      [[0, 248], [249, 497], [498, 746], [747, 999]] (by rfl)

/-! ## Termination signals of the two window walkers -/

/-- C5 counterexample: in `scan_key_range` a fetched page strictly shorter
than the requested page size does NOT terminate the walk: over the window
`[0, 100]` with a single record at key 5 and `count = 100`, the first page
has length 1 < 100, yet a second (empty-page) fetch is still issued — the
walk makes 2 fetch calls, where the claim requires 1. -/
theorem scan_key_range_trailing_fetch :
    scan_key_range (datasetPages [5]) 100 0 100 10 = ([5], 2) := by
  decide

/-- C5 (amended): `fetch_licenses_by_role_and_key_range` terminates on a
short page with no further fetch (for every server and state, a non-empty
page shorter than 100 ends the walk at this request); `scan_key_range`
terminates only on an empty page, so data exactly filling one full-size
page followed by an empty page terminates in exactly two fetch calls. -/
theorem short_page_termination :
    (∀ (responses : Nat → Int → Bool → Int → Bool → Nat → FetchOutcome)
       (endKey : Int) (fuel : Nat) (start : Int) (acc : List Int) (calls : Nat)
       (p : List Int),
      responses calls start true endKey false 100 = FetchOutcome.success p →
      p ≠ [] → p.length < 100 →
      fetchLicensesGo responses endKey (fuel + 1) start acc calls =
        Except.ok (acc ++ p, calls + 1)) ∧
    scan_key_range (datasetPages ((List.range 100).map (fun i => (i : Int))))
        100 0 1000 10 =
      ((List.range 100).map (fun i => (i : Int)), 2) := by
  constructor
  · intro responses endKey fuel start acc calls p hresp hne hlt
    cases p with
    | nil => exact absurd rfl hne
    | cons l ls =>
      have hlt2 : ¬ (99 ≤ ls.length) := by
        simp only [List.length_cons] at hlt
        omega
      simp [fetchLicensesGo, hresp, hlt, hlt2]
  · decide

/-- C5 witness: a window whose only page is the single record 7 makes
exactly one request in the license fetch walker. -/
theorem short_page_termination_witness :
    fetch_licenses_by_role_and_key_range (licensesServer [7]) 0 100 10 =
      Except.ok ([7], 1) :=
  short_page_termination.1 (licensesServer [7]) 100 9 0 [] 0 [7] rfl
    (by decide) (by decide)

/-! ## Retry classification -/

theorem scanPageGo_succ_http (responses : Nat → FetchOutcome)
    (maxTries fuel a s : Nat) (hr : responses a = FetchOutcome.httpError s) :
    scanPageGo responses maxTries (fuel + 1) a =
      if 400 ≤ s ∧ s < 500 then ScanPageResult.fatalClient s (a + 1)
      else if a + 1 > maxTries then ScanPageResult.retriesExhausted (a + 1)
      else scanPageGo responses maxTries fuel (a + 1) := by
  simp [scanPageGo, hr]

theorem scanPageGo_succ_transport (responses : Nat → FetchOutcome)
    (maxTries fuel a : Nat) (hr : responses a = FetchOutcome.transportError) :
    scanPageGo responses maxTries (fuel + 1) a =
      if a + 1 > maxTries then ScanPageResult.retriesExhausted (a + 1)
      else scanPageGo responses maxTries fuel (a + 1) := by
  simp [scanPageGo, hr]

theorem scanPageGo_exhausted (responses : Nat → FetchOutcome) (maxTries : Nat)
    (hall : ∀ i, RetryableOutcome (responses i)) :
    ∀ fuel a, a + fuel = maxTries + 1 → 0 < fuel →
      scanPageGo responses maxTries fuel a =
        ScanPageResult.retriesExhausted (maxTries + 1) := by
  intro fuel
  induction fuel with
  | zero => intro a h h0; exact absurd h0 (by omega)
  | succ f ih =>
    intro a h _
    have hra := hall a
    cases hr : responses a with
    | success page =>
      rw [hr] at hra
      simp [RetryableOutcome] at hra
    | httpError s =>
      rw [hr] at hra
      simp only [RetryableOutcome] at hra
      rw [scanPageGo_succ_http responses maxTries f a s hr, if_neg hra]
      by_cases hb : a + 1 > maxTries
      · rw [if_pos hb, show a + 1 = maxTries + 1 by omega]
      · rw [if_neg hb]
        exact ih (a + 1) (by omega) (by omega)
    | transportError =>
      rw [scanPageGo_succ_transport responses maxTries f a hr]
      by_cases hb : a + 1 > maxTries
      · rw [if_pos hb, show a + 1 = maxTries + 1 by omega]
      · rw [if_neg hb]
        exact ih (a + 1) (by omega) (by omega)

/-- C6 counterexample: the page fetch of
`fetch_licenses_by_role_and_key_range` does not retry a 5xx error.  Against
a server whose first response is HTTP 500 and whose every later response
succeeds, the walk propagates the error after exactly one request — a
fetcher that re-issued the identical request after backoff would have
succeeded. -/
theorem fetch_licenses_no_retry :
    fetch_licenses_by_role_and_key_range
        (fun calls _ _ _ _ _ =>
          if calls = 0 then FetchOutcome.httpError 500 else FetchOutcome.success [])
        0 1000 10 = Except.error (FetchErr.http 500 1) := by
  rfl

/-- C6 (amended): in `scan_page` a 4xx HTTP error is never retried and
propagates after exactly one attempt, and a persistently retryable error
(5xx or transport) exhausts the Backoff after `maxTries + 1` attempts in
total (11 for the default `max_tries = 10`); in
`fetch_licenses_by_role_and_key_range` no error is retried: any HTTP error
propagates after a single request. -/
theorem retry_classification :
    (∀ (responses : Nat → FetchOutcome) (maxTries : Nat) (s : Nat),
      400 ≤ s → s < 500 → responses 0 = FetchOutcome.httpError s →
      scan_page responses maxTries = ScanPageResult.fatalClient s 1) ∧
    (∀ (responses : Nat → FetchOutcome) (maxTries : Nat),
      (∀ i, RetryableOutcome (responses i)) →
      scan_page responses maxTries = ScanPageResult.retriesExhausted (maxTries + 1)) ∧
    (∀ (responses : Nat → Int → Bool → Int → Bool → Nat → FetchOutcome)
       (start endKey : Int) (s : Nat) (fuel : Nat),
      responses 0 start true endKey false 100 = FetchOutcome.httpError s →
      fetch_licenses_by_role_and_key_range responses start endKey (fuel + 1) =
        Except.error (FetchErr.http s 1)) := by
  refine ⟨?_, ?_, ?_⟩
  · intro responses maxTries s h4 h5 hr
    unfold scan_page
    rw [scanPageGo_succ_http responses maxTries maxTries 0 s hr, if_pos ⟨h4, h5⟩]
  · intro responses maxTries hall
    unfold scan_page
    exact scanPageGo_exhausted responses maxTries hall (maxTries + 1) 0 (by omega) (by omega)
  · intro responses start endKey s fuel hr
    simp [fetch_licenses_by_role_and_key_range, fetchLicensesGo, hr]

/-- C6 witness: concrete servers exercising all three conjuncts, with the
default `max_tries = 10` giving 11 attempts in total. -/
theorem retry_classification_witness :
    scan_page (fun _ => FetchOutcome.httpError 404) 10 =
      ScanPageResult.fatalClient 404 1 ∧
    scan_page (fun _ => FetchOutcome.httpError 503) 10 =
      ScanPageResult.retriesExhausted 11 ∧
    fetch_licenses_by_role_and_key_range
        (fun _ _ _ _ _ _ => FetchOutcome.httpError 503) 0 100 10 =
      Except.error (FetchErr.http 503 1) := by
  refine ⟨?_, ?_, ?_⟩
  · exact retry_classification.1 (fun _ => FetchOutcome.httpError 404) 10 404
      (by decide) (by decide) rfl
  · exact retry_classification.2.1 (fun _ => FetchOutcome.httpError 503) 10
      (fun i => by simp [RetryableOutcome])
  · exact retry_classification.2.2 (fun _ _ _ _ _ _ => FetchOutcome.httpError 503)
      0 100 503 9 rfl

/-! ## Consolidation grouping invariants -/

theorem pickPrimary_mem (ls : List License) (h : ls ≠ []) : pickPrimary ls ∈ ls := by
  cases ls with
  | nil => exact absurd rfl h
  | cons a t =>
    have hfold : ∀ (t : List License) (b : License),
        t.foldl (fun best l =>
          if best.userKeys.length < l.userKeys.length then l else best) b ∈ b :: t := by
      intro t
      induction t with
      | nil => intro b; simp
      | cons x xs ih =>
        intro b
        simp only [List.foldl_cons]
        have hmem := ih (if b.userKeys.length < x.userKeys.length then x else b)
        by_cases hc : b.userKeys.length < x.userKeys.length
        · rw [if_pos hc] at hmem ⊢
          simp only [List.mem_cons] at hmem ⊢
          tauto
        · rw [if_neg hc] at hmem ⊢
          simp only [List.mem_cons] at hmem ⊢
          tauto
    simpa [pickPrimary] using hfold t a

theorem processAccountGroup_delete_mem (g : List License) (k : Int)
    (h : Mutation.delete k ∈ processAccountGroup g) : ∃ lic ∈ g, lic.key = k := by
  simp only [processAccountGroup] at h
  split at h
  · simp at h
  · simp only [List.mem_flatMap, List.mem_filter, List.mem_cons,
      List.not_mem_nil, or_false] at h
    obtain ⟨lic, ⟨hlic, _⟩, u, _, hcase⟩ := h
    rcases hcase with hcase | hcase
    · exact absurd hcase (by simp)
    · injection hcase with hk
      exact ⟨lic, hlic, hk.symm⟩

theorem process_account_licenses_delete_mem (gs : List (Int × List License)) (k : Int)
    (h : Mutation.delete k ∈ process_account_licenses gs) :
    ∃ g ∈ gs, ∃ lic ∈ g.2, lic.key = k := by
  simp only [process_account_licenses, List.mem_flatMap] at h
  obtain ⟨g, hg, hk⟩ := h
  obtain ⟨lic, hlic, hkey⟩ := processAccountGroup_delete_mem g.2 k hk
  exact ⟨g, hg, lic, hlic, hkey⟩

theorem groupByAccount_sub (ls : List License) (g : Int × List License)
    (hg : g ∈ groupByAccount ls) (lic : License) (hlic : lic ∈ g.2) : lic ∈ ls := by
  simp only [groupByAccount, List.mem_map] at hg
  obtain ⟨k, _, hk⟩ := hg
  rw [← hk] at hlic
  exact (List.mem_filter.mp hlic).1

theorem filterEnabled_not_mem (ls : List License) (r : License)
    (hr : r.enabled = some false) : r ∉ filterEnabled ls := by
  intro hmem
  have hpred := (List.mem_filter.mp hmem).2
  rw [hr] at hpred
  simp at hpred

/-- C10: confirmed.  A license with `enabled = false` is excluded by the
filter of `main` and therefore belongs to no account group, is never the
selected primary of any group, and every delete issued by the consolidation
pass targets the key of some enabled (or enabled-absent) license — never
the excluded record. -/
theorem disabled_license_excluded (ls : List License) (r : License)
    (hr : r.enabled = some false) :
    r ∉ filterEnabled ls ∧
    (∀ g ∈ groupByAccount (filterEnabled ls), r ∉ g.2 ∧
      (g.2 ≠ [] → pickPrimary g.2 ≠ r)) ∧
    (∀ k, Mutation.delete k ∈
        process_account_licenses (groupByAccount (filterEnabled ls)) →
      ∃ lic ∈ filterEnabled ls, lic.key = k ∧ lic ≠ r) := by
  have hout : r ∉ filterEnabled ls := filterEnabled_not_mem ls r hr
  refine ⟨hout, ?_, ?_⟩
  · intro g hg
    have hnot : r ∉ g.2 := fun hmem => hout (groupByAccount_sub _ g hg r hmem)
    refine ⟨hnot, fun hne heq => ?_⟩
    exact hnot (heq ▸ pickPrimary_mem g.2 hne)
  · intro k hk
    obtain ⟨g, hg, lic, hlic, hkey⟩ := process_account_licenses_delete_mem _ k hk
    have hin : lic ∈ filterEnabled ls := groupByAccount_sub _ g hg lic hlic
    exact ⟨lic, hin, hkey, fun hlr => hout (hlr ▸ hin)⟩

/-- C10 witness: with one enabled and one disabled license on the same
account, the disabled record is excluded from the filtered list. -/
theorem disabled_license_excluded_witness :
    (⟨9, [1], 7, some false⟩ : License) ∉
      filterEnabled [⟨8, [1, 2], 7, some true⟩, ⟨9, [1], 7, some false⟩] :=
  (disabled_license_excluded
    [⟨8, [1, 2], 7, some true⟩, ⟨9, [1], 7, some false⟩]
    ⟨9, [1], 7, some false⟩ rfl).1
